import Mathlib

/-!
Verification of the RAG support layer of `server.js` (Sagan dashboard backend).

JavaScript strings are modelled as `List Char` (`JStr`), JavaScript numbers as
`ℚ` where the source only performs exact rational arithmetic (keyword vectors,
settings) and as `ℝ` where `Math.sqrt` is involved (similarity scoring).  A
JavaScript `NaN` produced by `0/0` is modelled by `Option.none`.  The source
file declares every RAG helper twice (lines 66-222 and 899-1059); the two
declaration blocks are byte-identical, so the model below is unambiguous.
-/

namespace Sagan

/-- JavaScript strings, modelled as lists of characters. -/
abbrev JStr := List Char

/-! ## Chunker (`splitIntoChunks`, server.js lines 121-142)

`text.split(/[.!?]+/)` splits on maximal runs of the terminal characters
`.`, `!`, `?`.  `splitGo` implements this: in the `skipping` state it has just
consumed a terminal character and swallows any directly following terminals
without emitting empty segments, exactly like the `+` in the regex. -/

/-- The sentence-terminal characters of the regex `[.!?]+`. -/
def isTerminal (c : Char) : Bool := c = '.' || c = '!' || c = '?'

/-- One pass of `String.prototype.split(/[.!?]+/)`.  `acc` holds the current
segment in reverse.  In the `skipping` state the accumulator is always empty:
a terminal character was just consumed and further terminals are swallowed. -/
def splitGo : Bool → JStr → JStr → List JStr
  | _, [], acc => [acc.reverse]
  | skipping, c :: rest, acc =>
    if isTerminal c then
      if skipping then splitGo true rest []
      else acc.reverse :: splitGo true rest []
    else splitGo false rest (c :: acc)

/-- `text.split(/[.!?]+/)`. -/
def splitTerminals (s : JStr) : List JStr := splitGo false s []

/-- `s.trim()` removes leading whitespace; `String.prototype.trim` strips
whitespace from both ends. -/
def trimLeft (s : JStr) : JStr := s.dropWhile Char.isWhitespace

/-- Strip trailing whitespace. -/
def trimRight (s : JStr) : JStr := (s.reverse.dropWhile Char.isWhitespace).reverse

/-- `String.prototype.trim`. -/
def jsTrim (s : JStr) : JStr := trimRight (trimLeft s)

/-- `text.split(/[.!?]+/).filter(s => s.trim().length > 0)`:
the sentence list of a text, with whitespace-only pieces discarded
(`s.trim().length > 0` holds exactly when the trimmed piece is nonempty). -/
def sentencesOf (text : JStr) : List JStr :=
  (splitTerminals text).filter (fun s => decide (jsTrim s ≠ []))

/-- The `for (const sentence of sentences)` loop of `splitIntoChunks` plus the
final flush.  `currentChunk` is threaded explicitly; `currentChunk += sentence
+ '. '` appends the sentence and the two-character separator, and a chunk is
pushed only when its trimmed form is nonempty (`if (currentChunk.trim())`). -/
def chunksGo (maxChunkSize : Nat) : List JStr → JStr → List JStr
  | [], currentChunk =>
      if jsTrim currentChunk ≠ [] then [jsTrim currentChunk] else []
  | sentence :: rest, currentChunk =>
      if currentChunk.length + sentence.length < maxChunkSize then
        chunksGo maxChunkSize rest (currentChunk ++ sentence ++ ['.', ' '])
      else
        (if jsTrim currentChunk ≠ [] then [jsTrim currentChunk] else []) ++
          chunksGo maxChunkSize rest (sentence ++ ['.', ' '])

/-- `splitIntoChunks(text, maxChunkSize)` (source default `maxChunkSize = 500`;
every caller uses the default or passes 500 explicitly). -/
def splitIntoChunks (text : JStr) (maxChunkSize : Nat) : List JStr :=
  chunksGo maxChunkSize (sentencesOf text) []

/-- Join a list of sentences, each followed by the `'. '` separator the source
appends; this is the shape of the accumulated `currentChunk`. -/
def joinDotSpace : List JStr → JStr
  | [] => []
  | s :: rest => s ++ '.' :: ' ' :: joinDotSpace rest

/-- Claim-side chunker, phrased after the specification: greedily accumulate
the *list* of sentences of the current chunk, starting a new chunk as soon as
appending the next sentence would make the accumulated text meet or exceed
`maxChunkSize` characters, and always emitting the trailing partial chunk when
non-empty. -/
def specGo (maxChunkSize : Nat) : List JStr → List JStr → List JStr
  | [], group => if group = [] then [] else [jsTrim (joinDotSpace group)]
  | sentence :: rest, group =>
      if maxChunkSize ≤ (joinDotSpace group).length + sentence.length then
        (if group = [] then [] else [jsTrim (joinDotSpace group)]) ++
          specGo maxChunkSize rest [sentence]
      else specGo maxChunkSize rest (group ++ [sentence])

/-- Claim-side chunking contract: split into sentences, discard empty ones,
then greedily group. -/
def chunkSpec (text : JStr) (maxChunkSize : Nat) : List JStr :=
  specGo maxChunkSize (sentencesOf text) []

/-- The trimmed, non-blank pieces of a piece list: what `sentencesOf` keeps,
with each piece trimmed. -/
def trimmedPieces (l : List JStr) : List JStr :=
  (l.filter (fun s => decide (jsTrim s ≠ []))).map jsTrim

/-- The trimmed sentence sequence of a text. -/
def sentencesTrim (t : JStr) : List JStr := (sentencesOf t).map jsTrim

/-- A sentence piece is `clean` when it contains no terminal character and
does not trim to the empty string; `splitIntoChunks` only ever accumulates
clean sentences. -/
def CleanSentence (s : JStr) : Prop :=
  (∀ c ∈ s, isTerminal c = false) ∧ jsTrim s ≠ []

/-! ## Keyword vectors and embeddings (server.js lines 66-103)

JavaScript numbers are modelled as `ℚ` here: the fallback vector only uses
counting, division and multiplication by 1000.  For empty `text` the source
computes `0 / 0 = NaN`; value statements about vector components therefore
carry a `text ≠ []` hypothesis (the dimension statement needs none). -/

/-- The fixed ordered keyword vocabulary of `generateKeywordVector`
(server.js lines 92-97). -/
def ragKeywords : List JStr :=
  ["market".toList, "treatment".toList, "physician".toList, "academic".toList,
   "community".toList, "region".toList, "adoption".toList, "preference".toList,
   "efficacy".toList, "safety".toList, "compliance".toList, "prescribing".toList,
   "competition".toList, "share".toList, "growth".toList, "trend".toList,
   "segment".toList, "therapeutic".toList, "survey".toList, "analysis".toList,
   "data".toList, "patient".toList, "clinical".toList, "therapy".toList]

/-- Occurrence counter with explicit fuel, so that the definition is
structurally recursive (and therefore kernel-reducible).  Every step consumes
at least one character of the text, so fuel equal to the text length never
runs out. -/
def countOccsAux (pat : JStr) : ℕ → JStr → ℕ
  | 0, _ => 0
  | _ + 1, [] => 0
  | fuel + 1, c :: rest =>
    if pat.isPrefixOf (c :: rest) then
      1 + countOccsAux pat fuel (rest.drop (pat.length - 1))
    else countOccsAux pat fuel rest

/-- `(lowerText.match(new RegExp(keyword, 'g')) || []).length`: the number of
non-overlapping, left-to-right occurrences of `pat` in a text (each keyword
is a plain nonempty word, so the regex matches it literally: at each match
the scan advances past the matched occurrence, otherwise by one character). -/
def countOccs (pat : JStr) (text : JStr) : ℕ :=
  countOccsAux pat text.length text

/-- `text.toLowerCase()`, character-wise. -/
def jsToLower (s : JStr) : JStr := s.map Char.toLower

/-- `generateKeywordVector(text)` (server.js lines 90-103): for each
vocabulary term, `occurrences(term, lowercased text) / text.length * 1000`. -/
def generateKeywordVector (text : JStr) : List ℚ :=
  let lowerText := jsToLower text
  ragKeywords.map (fun keyword =>
    (countOccs keyword lowerText : ℚ) / (text.length : ℚ) * 1000)

/-- Environment of `generateEmbedding`: whether `OPENAI_API_KEY` is set to a
truthy value, and the remote call (`axios.post` plus the extraction
`response.data.data[0].embedding`); any failure anywhere in that call is an
`Except.error` (the `catch` block sees it).  Remote vectors are `List ℝ`. -/
structure EmbedEnv where
  hasApiKey : Bool
  remote : JStr → Except JStr (List ℝ)

/-- `generateEmbedding(text)` (server.js lines 66-88): remote embedding of
the text truncated to 8000 characters (`text.substring(0, 8000)`), falling
back silently to the keyword vector when the key is missing or the remote
call throws. -/
def generateEmbedding (env : EmbedEnv) (text : JStr) : List ℝ :=
  if env.hasApiKey = false then
    (generateKeywordVector text).map (fun q : ℚ => (q : ℝ))
  else
    match env.remote (text.take 8000) with
    | Except.ok v => v
    | Except.error _ => (generateKeywordVector text).map (fun q : ℚ => (q : ℝ))

/-! ## Cosine similarity and retrieval (server.js lines 105-119, 196-222) -/

/-- `calculateSimilarity(vector1, vector2)` (server.js lines 105-119).
Mismatched lengths return `0` before the loop.  Otherwise the source returns
`dotProduct / (Math.sqrt(norm1) * Math.sqrt(norm2))`; when that denominator
is `0` one of the vectors is the zero vector, so `dotProduct` is `0` as well
and the JavaScript division `0/0` yields `NaN`, modelled as `none`.  (The
loop runs over `i < vector1.length`; in the branch where it runs the two
lengths agree, so `zipWith`/`map` sums are exactly the loop's sums.) -/
noncomputable def calculateSimilarity (vector1 vector2 : List ℝ) : Option ℝ :=
  if vector1.length ≠ vector2.length then some 0
  else
    let dotProduct := (List.zipWith (fun a b => a * b) vector1 vector2).sum
    let norm1 := (vector1.map (fun a => a * a)).sum
    let norm2 := (vector2.map (fun a => a * a)).sum
    if Real.sqrt norm1 * Real.sqrt norm2 = 0 then none
    else some (dotProduct / (Real.sqrt norm1 * Real.sqrt norm2))

/-- A stored chunk (server.js lines 169-179).  `processedAt` (a wall-clock
timestamp) is omitted; no claim mentions it. -/
structure Chunk where
  id : JStr
  fileName : JStr
  content : JStr
  embedding : List ℝ
  category : JStr
  chunkIndex : ℕ
  totalChunks : ℕ
  keywords : List JStr

/-- `{...doc, similarity}`: a chunk together with its query-time similarity
(`none` models a `NaN` similarity). -/
abbrev ScoredChunk := Chunk × Option ℝ

/-- `doc.similarity > adminSettings.similarityThreshold`: every JavaScript
comparison involving `NaN` is false. -/
noncomputable def simGtB (sim : Option ℝ) (threshold : ℝ) : Bool :=
  match sim with
  | none => false
  | some x => decide (threshold < x)

/-- The comparator key of `.sort((a, b) => b.similarity - a.similarity)`.
Entries reaching the sort have passed the strict `>` filter, so their
similarity is always `some`; `getD 0` never actually fires on `none`. -/
noncomputable def simKey (sc : ScoredChunk) : ℝ := sc.2.getD 0

/-- `.sort((a, b) => b.similarity - a.similarity)`: Array.prototype.sort is
stable (ECMAScript 2019, and V8 implements it so), and with this comparator
it sorts in descending similarity order; a stable descending insertion sort
computes exactly that result. -/
noncomputable def sortBySimilarity (l : List ScoredChunk) : List ScoredChunk :=
  List.insertionSort (fun a b => simKey b ≤ simKey a) l

/-- The scored store entries that pass the strict similarity filter
(`similarities.filter(doc => doc.similarity > adminSettings.similarityThreshold)`). -/
noncomputable def relevantScored (env : EmbedEnv) (query : JStr)
    (documentStore : List Chunk) (similarityThreshold : ℝ) : List ScoredChunk :=
  (documentStore.map
      (fun doc => (doc, calculateSimilarity (generateEmbedding env query) doc.embedding))).filter
    (fun doc => simGtB doc.2 similarityThreshold)

/-- `retrieveRelevantContext(query, limit)` (server.js lines 196-222).  The
source reads the store and `adminSettings.similarityThreshold` from module
state; both are explicit parameters here.  An empty store short-circuits
before the embedding call.  (`systemStats.ragQueries++` and the `catch`
block are not modelled: the function body cannot throw.) -/
noncomputable def retrieveRelevantContext (env : EmbedEnv) (query : JStr)
    (documentStore : List Chunk) (similarityThreshold : ℝ) (limit : ℕ) :
    List ScoredChunk :=
  match documentStore with
  | [] => []
  | _ :: _ =>
    (sortBySimilarity (relevantScored env query documentStore similarityThreshold)).take
      limit

/-- The ranking order claimed for the query result: strictly greater
similarity first, ties in original (store) position order. -/
def rankedBefore (a b : ℕ × ScoredChunk) : Prop :=
  simKey b.2 < simKey a.2 ∨ (simKey a.2 = simKey b.2 ∧ a.1 < b.1)

/-- The stable sort applied to position-annotated entries. -/
noncomputable def sortBySimilarityIdx (l : List (ℕ × ScoredChunk)) :
    List (ℕ × ScoredChunk) :=
  List.insertionSort (fun a b => simKey b.2 ≤ simKey a.2) l

/-! ## Training-example deletion (server.js lines 660-687) -/

/-- A training example (server.js lines 610-616).  `uploadedAt` (wall-clock)
is omitted; no claim mentions it. -/
structure TrainingExample where
  content : JStr
  fileName : JStr
  category : JStr
  keywords : List JStr

/-- Response of `DELETE /admin/training-examples/:index`: 404, the success
payload (`deletedFile`, `removedChunks`, `remainingCount`), or the 500 sent
by the `catch` block. -/
inductive DeleteResponse where
  | notFound
  | ok (deletedFile : JStr) (removedChunks : ℕ) (remainingCount : ℕ)
  | serverError

/-- The mutable module state the delete route touches. -/
structure RagStore where
  trainingExamples : List TrainingExample
  documentStore : List Chunk

/-- `DELETE /admin/training-examples/:index` (server.js lines 660-687).
`idx` is the result of `parseInt(req.params.index)`, with `none` modelling
`NaN`.  Both guard comparisons are false for `NaN`, and
`Array.prototype.splice` coerces a `NaN` start index to `0`.  When `splice`
removes nothing (empty registry), `removed` is `undefined` and reading
`removed.fileName` throws a TypeError that the `catch` block turns into a
500 response. -/
def deleteTrainingExampleRoute (idx : Option Int) (st : RagStore) :
    DeleteResponse × RagStore :=
  let outOfBounds : Bool :=
    match idx with
    | some i => decide (i < 0) || decide ((st.trainingExamples.length : Int) ≤ i)
    | none => false
  if outOfBounds then (DeleteResponse.notFound, st)
  else
    let spliceIndex : ℕ :=
      match idx with
      | some i => i.toNat
      | none => 0
    match st.trainingExamples.get? spliceIndex with
    | none =>
        (DeleteResponse.serverError,
         { st with trainingExamples := st.trainingExamples.eraseIdx spliceIndex })
    | some removed =>
        let newExamples := st.trainingExamples.eraseIdx spliceIndex
        let newDocs := st.documentStore.filter
          (fun doc => decide (doc.fileName ≠ removed.fileName))
        (DeleteResponse.ok removed.fileName
            (st.documentStore.length - newDocs.length) newExamples.length,
         { trainingExamples := newExamples, documentStore := newDocs })

/-! ## Settings updates (server.js lines 572-598 and 1436-1472)

Numeric JavaScript values are modelled as `ℚ`; `parseInt` applied to a
number coerces it to its decimal string and parses the integer part, i.e.
truncation toward zero, and `parseFloat` applied to a number is the number
itself. -/

/-- `parseInt` on a number: truncation toward zero. -/
def jsParseIntNum (q : ℚ) : ℚ := if 0 ≤ q then (⌊q⌋ : ℚ) else (⌈q⌉ : ℚ)

/-- Truthiness of a possibly-absent string field (`undefined` and `''` are
falsy). -/
def truthyStr : Option JStr → Bool
  | none => false
  | some s => decide (s ≠ [])

/-- Truthiness of a possibly-absent numeric field (`undefined` and `0` are
falsy; JSON bodies cannot carry `NaN`). -/
def truthyNum : Option ℚ → Bool
  | none => false
  | some q => decide (q ≠ 0)

/-- The `adminSettings` fields read or written by the settings routes
(server.js lines 19-44).  `systemPrompt` is neither read nor written by the
two routes under study and is omitted. -/
structure AdminSettings where
  claudeModel : JStr
  maxTokens : ℚ
  temperature : ℚ
  ragEnabled : Bool
  similarityThreshold : ℚ
  maxTrainingExamples : ℚ
deriving DecidableEq

/-- The initial `adminSettings` value (server.js lines 38-43). -/
def adminSettingsInit : AdminSettings :=
  ⟨"claude-3-5-sonnet-20241022".toList, 4000, 7/10, true, 7/10, 5⟩

/-- `ragSettings` (server.js lines 892-897). -/
structure RagSettings where
  enabled : Bool
  mode : JStr
  similarityThreshold : ℚ
  maxExamples : ℚ
deriving DecidableEq

/-- The initial `ragSettings` value, seeded from `adminSettings`. -/
def ragSettingsInit : RagSettings :=
  ⟨true, "learning".toList, 7/10, 5⟩

/-- The request body of `POST /admin/update-api-settings`; `none` is an
absent (`undefined`) field. -/
structure ApiSettingsPatch where
  claudeModel : Option JStr
  maxTokens : Option ℚ
  temperature : Option ℚ
  ragEnabled : Option Bool
  similarityThreshold : Option ℚ
  maxTrainingExamples : Option ℚ

/-- `POST /admin/update-api-settings` (server.js lines 572-598): a sequence
of guarded assignments.  `claudeModel`, `maxTokens`, `similarityThreshold`
and `maxTrainingExamples` are guarded by truthiness (`if (field)`), while
`temperature` and `ragEnabled` are guarded by `field !== undefined`. -/
def updateApiSettings (p : ApiSettingsPatch) (s0 : AdminSettings) : AdminSettings :=
  let s1 := if truthyStr p.claudeModel
    then { s0 with claudeModel := p.claudeModel.getD [] } else s0
  let s2 := if truthyNum p.maxTokens
    then { s1 with maxTokens := jsParseIntNum (p.maxTokens.getD 0) } else s1
  let s3 := match p.temperature with
    | some t => { s2 with temperature := t }
    | none => s2
  let s4 := match p.ragEnabled with
    | some b => { s3 with ragEnabled := b }
    | none => s3
  let s5 := if truthyNum p.similarityThreshold
    then { s4 with similarityThreshold := p.similarityThreshold.getD 0 } else s4
  let s6 := if truthyNum p.maxTrainingExamples
    then { s5 with maxTrainingExamples := jsParseIntNum (p.maxTrainingExamples.getD 0) }
    else s5
  s6

/-- The request body of `POST /admin/rag-settings`. -/
structure RagSettingsPatch where
  enabled : Option Bool
  mode : Option JStr
  similarityThreshold : Option ℚ
  maxExamples : Option ℚ

/-- `POST /admin/rag-settings` (server.js lines 1436-1472): rebuilds
`ragSettings` (`enabled`, `similarityThreshold` and `maxExamples` via
`!== undefined`, `mode` via `mode || ragSettings.mode`, i.e. truthiness) and
then copies the three shared fields into `adminSettings`. -/
def updateRagSettings (p : RagSettingsPatch) (rs : RagSettings)
    (as0 : AdminSettings) : RagSettings × AdminSettings :=
  let rs2 : RagSettings :=
    { enabled := match p.enabled with | some b => b | none => rs.enabled
      mode := if truthyStr p.mode then p.mode.getD [] else rs.mode
      similarityThreshold :=
        match p.similarityThreshold with | some q => q | none => rs.similarityThreshold
      maxExamples := match p.maxExamples with | some q => q | none => rs.maxExamples }
  (rs2,
   { as0 with
      ragEnabled := rs2.enabled
      similarityThreshold := rs2.similarityThreshold
      maxTrainingExamples := rs2.maxExamples })

end Sagan

namespace Sagan

/-! ## Basic trimming lemmas -/

theorem jsTrim_eq_nil_iff (s : JStr) :
    jsTrim s = [] ↔ ∀ c ∈ s, c.isWhitespace = true := by
  unfold jsTrim trimRight trimLeft
  rw [List.reverse_eq_nil_iff, List.dropWhile_eq_nil_iff]
  constructor
  · intro h c hc
    rw [← List.takeWhile_append_dropWhile (p := Char.isWhitespace) (l := s)] at hc
    rcases List.mem_append.1 hc with h1 | h2
    · exact List.mem_takeWhile_imp h1
    · exact h _ (List.mem_reverse.2 h2)
  · intro h c hc
    exact h _ (List.Sublist.mem (List.mem_reverse.1 hc) (List.dropWhile_sublist _))

theorem mem_imp_jsTrim_ne_nil {s : JStr} {c : Char} (hc : c ∈ s)
    (hw : c.isWhitespace = false) : jsTrim s ≠ [] := by
  intro h
  have := (jsTrim_eq_nil_iff s).1 h c hc
  simp [hw] at this

theorem joinDotSpace_append_singleton (g : List JStr) (s : JStr) :
    joinDotSpace (g ++ [s]) = joinDotSpace g ++ s ++ ['.', ' '] := by
  induction g with
  | nil => simp [joinDotSpace]
  | cons t g ih => simp [joinDotSpace, ih]

theorem dot_mem_joinDotSpace (g : List JStr) (hg : g ≠ []) :
    '.' ∈ joinDotSpace g := by
  cases g with
  | nil => exact absurd rfl hg
  | cons s rest => simp [joinDotSpace]

theorem jsTrim_joinDotSpace_ne_nil {g : List JStr} (hg : g ≠ []) :
    jsTrim (joinDotSpace g) ≠ [] :=
  mem_imp_jsTrim_ne_nil (dot_mem_joinDotSpace g hg) (by decide)

/-! ## C2: the chunker implements the greedy specification -/

theorem chunksGo_eq_specGo (maxChunkSize : Nat) (ss : List JStr) (g : List JStr) :
    chunksGo maxChunkSize ss (joinDotSpace g) = specGo maxChunkSize ss g := by
  induction ss generalizing g with
  | nil =>
    by_cases hg : g = []
    · subst hg; simp [chunksGo, specGo, joinDotSpace, jsTrim, trimLeft, trimRight]
    · simp [chunksGo, specGo, hg, jsTrim_joinDotSpace_ne_nil hg]
  | cons s rest ih =>
    by_cases hlt : (joinDotSpace g).length + s.length < maxChunkSize
    · have hle : ¬ maxChunkSize ≤ (joinDotSpace g).length + s.length := by omega
      have : joinDotSpace g ++ s ++ ['.', ' '] = joinDotSpace (g ++ [s]) :=
        (joinDotSpace_append_singleton g s).symm
      simp only [chunksGo, specGo, if_pos hlt, if_neg hle, this, ih]
    · have hle : maxChunkSize ≤ (joinDotSpace g).length + s.length := by omega
      have h1 : s ++ ['.', ' '] = joinDotSpace [s] := by simp [joinDotSpace]
      by_cases hg : g = []
      · subst hg
        simp only [chunksGo, specGo, if_neg hlt, if_pos hle, h1, ih]
        simp [joinDotSpace, jsTrim, trimLeft, trimRight]
      · simp only [chunksGo, specGo, if_neg hlt, if_pos hle, h1, ih]
        simp [hg, jsTrim_joinDotSpace_ne_nil hg]

theorem splitIntoChunks_eq_chunkSpec (text : JStr) (maxChunkSize : Nat) :
    splitIntoChunks text maxChunkSize = chunkSpec text maxChunkSize := by
  have := chunksGo_eq_specGo maxChunkSize (sentencesOf text) []
  simpa [splitIntoChunks, chunkSpec, joinDotSpace] using this

/-- An accumulated chunk whose length already reaches the bound is flushed as
its own chunk (no later sentence can join it). -/
theorem mem_chunksGo_of_big (maxChunkSize : Nat) (ss : List JStr) (cur : JStr)
    (hbig : maxChunkSize ≤ cur.length) (hne : jsTrim cur ≠ []) :
    jsTrim cur ∈ chunksGo maxChunkSize ss cur := by
  cases ss with
  | nil => simp [chunksGo, hne]
  | cons s rest =>
    have hlt : ¬ cur.length + s.length < maxChunkSize := by omega
    simp only [chunksGo, if_neg hlt]
    simp [hne]

/-- Every sentence at least as long as the bound is emitted as its own
(oversized) chunk, namely `jsTrim (s ++ '. ')`. -/
theorem oversized_sentence_own_chunk (maxChunkSize : Nat) (ss : List JStr)
    (cur : JStr) (s : JStr) (hs : s ∈ ss) (hbig : maxChunkSize ≤ s.length) :
    jsTrim (s ++ ['.', ' ']) ∈ chunksGo maxChunkSize ss cur := by
  induction ss generalizing cur with
  | nil => cases hs
  | cons t rest ih =>
    rcases List.mem_cons.1 hs with rfl | hmem
    · have hlt : ¬ cur.length + s.length < maxChunkSize := by omega
      have hbig2 : maxChunkSize ≤ (s ++ ['.', ' ']).length := by
        simp only [List.length_append, List.length_cons]; omega
      have hne : jsTrim (s ++ ['.', ' ']) ≠ [] := by
        refine mem_imp_jsTrim_ne_nil (c := '.') ?_ (by decide)
        simp
      simp only [chunksGo, if_neg hlt]
      exact List.mem_append_right _ (mem_chunksGo_of_big _ _ _ hbig2 hne)
    · by_cases hlt : cur.length + t.length < maxChunkSize
      · simp only [chunksGo, if_pos hlt]
        exact ih _ hmem
      · simp only [chunksGo, if_neg hlt]
        exact List.mem_append_right _ (ih _ hmem)

/-! ## Splitter and trimmer algebra (towards C8) -/

theorem whitespace_not_terminal {c : Char} (h : c.isWhitespace = true) :
    isTerminal c = false := by
  have : ((c = ' ' ∨ c = '\t') ∨ c = '\x0d') ∨ c = '\n' := by
    simpa [Char.isWhitespace] using h
  rcases this with ((rfl | rfl) | rfl) | rfl <;> decide

theorem trimRight_eq_nil_iff (s : JStr) :
    trimRight s = [] ↔ ∀ c ∈ s, c.isWhitespace = true := by
  unfold trimRight
  rw [List.reverse_eq_nil_iff, List.dropWhile_eq_nil_iff]
  constructor
  · intro h c hc; exact h c (List.mem_reverse.2 hc)
  · intro h c hc; exact h c (List.mem_reverse.1 hc)

theorem trimRight_ne_nil_of_mem {s : JStr} {c : Char} (hc : c ∈ s)
    (hw : c.isWhitespace = false) : trimRight s ≠ [] := by
  intro h
  have := (trimRight_eq_nil_iff s).1 h c hc
  simp [hw] at this

theorem dropWhile_dropWhile (p : Char → Bool) (l : JStr) :
    (l.dropWhile p).dropWhile p = l.dropWhile p := by
  induction l with
  | nil => rfl
  | cons c t ih =>
    by_cases hc : p c = true
    · simpa [List.dropWhile_cons, hc] using ih
    · simp [List.dropWhile_cons, hc]

theorem trimLeft_trimLeft (s : JStr) : trimLeft (trimLeft s) = trimLeft s :=
  dropWhile_dropWhile _ s

theorem jsTrim_trimLeft (s : JStr) : jsTrim (trimLeft s) = jsTrim s := by
  unfold jsTrim; rw [trimLeft_trimLeft]

theorem trimLeft_ws_append {w s : JStr} (hw : ∀ c ∈ w, c.isWhitespace = true) :
    trimLeft (w ++ s) = trimLeft s := by
  unfold trimLeft
  rw [List.dropWhile_append, List.dropWhile_eq_nil_iff.2 hw]
  simp

theorem jsTrim_ws_append {w s : JStr} (hw : ∀ c ∈ w, c.isWhitespace = true) :
    jsTrim (w ++ s) = jsTrim s := by
  unfold jsTrim; rw [trimLeft_ws_append hw]

theorem trimRight_append {a b : JStr} (hb : trimRight b ≠ []) :
    trimRight (a ++ b) = a ++ trimRight b := by
  unfold trimRight at *
  rw [List.reverse_append, List.dropWhile_append]
  have hb' : b.reverse.dropWhile Char.isWhitespace ≠ [] := by
    intro h; exact hb (by rw [h]; rfl)
  rw [if_neg (by simpa [List.isEmpty_iff] using hb')]
  simp

theorem trimRight_dot_space (x : JStr) :
    trimRight (x ++ ['.', ' ']) = x ++ ['.'] := by
  unfold trimRight
  rw [List.reverse_append]
  show (List.dropWhile Char.isWhitespace (' ' :: '.' :: x.reverse)).reverse = x ++ ['.']
  rw [List.dropWhile_cons, if_pos (by decide), List.dropWhile_cons, if_neg (by decide)]
  simp

theorem trimLeft_append_dot (x z : JStr) :
    trimLeft (x ++ '.' :: z) = trimLeft x ++ '.' :: z := by
  unfold trimLeft
  rw [List.dropWhile_append]
  by_cases hx : x.dropWhile Char.isWhitespace = []
  · rw [hx]; simp [List.dropWhile_cons]
  · rw [if_neg (by simpa [List.isEmpty_iff] using hx)]

theorem jsTrim_append_dot_space (x : JStr) :
    jsTrim (x ++ ['.', ' ']) = trimLeft x ++ ['.'] := by
  unfold jsTrim
  have h1 : (['.', ' '] : JStr) = '.' :: [' '] := rfl
  rw [h1, trimLeft_append_dot]
  have h2 : trimLeft x ++ '.' :: [' '] = trimLeft x ++ ['.', ' '] := rfl
  rw [h2, trimRight_dot_space]

theorem trimRight_eq_takeWhile_append {x : JStr} (hx : jsTrim x ≠ []) :
    trimRight x = x.takeWhile Char.isWhitespace ++ jsTrim x := by
  conv_lhs => rw [← List.takeWhile_append_dropWhile (p := Char.isWhitespace) (l := x)]
  exact trimRight_append hx

theorem splitGo_cons_not_terminal {c : Char} (hc : isTerminal c = false)
    (b : Bool) (rest : JStr) (acc : JStr) :
    splitGo b (c :: rest) acc = splitGo false rest (c :: acc) := by
  cases b <;> simp [splitGo, hc]

theorem splitGo_false_cons_terminal {c : Char} (hc : isTerminal c = true)
    (rest : JStr) (acc : JStr) :
    splitGo false (c :: rest) acc = acc.reverse :: splitGo true rest [] := by
  simp [splitGo, hc]

theorem splitGo_true_cons_terminal {c : Char} (hc : isTerminal c = true)
    (rest : JStr) (acc : JStr) :
    splitGo true (c :: rest) acc = splitGo true rest [] := by
  simp [splitGo, hc]

theorem splitGo_ne_nil (cs : JStr) (b : Bool) (acc : JStr) :
    splitGo b cs acc ≠ [] := by
  induction cs generalizing b acc with
  | nil => simp [splitGo]
  | cons c rest ih =>
    by_cases hc : isTerminal c = true
    · cases b
      · rw [splitGo_false_cons_terminal hc]; simp
      · rw [splitGo_true_cons_terminal hc]; exact ih _ _
    · rw [splitGo_cons_not_terminal (by simpa using hc)]
      exact ih _ _

theorem splitGo_acc (cs : JStr) (acc : JStr) :
    splitGo false cs acc =
      (splitGo false cs []).modifyHead (fun h => acc.reverse ++ h) := by
  induction cs generalizing acc with
  | nil => simp [splitGo]
  | cons c rest ih =>
    by_cases hc : isTerminal c = true
    · rw [splitGo_false_cons_terminal hc, splitGo_false_cons_terminal hc]
      simp
    · rw [splitGo_cons_not_terminal (by simpa using hc),
        splitGo_cons_not_terminal (by simpa using hc),
        ih (c :: acc), ih [c], List.modifyHead_modifyHead]
      congr 1
      funext h
      simp

theorem splitGo_terminal_free (cs : JStr) (b : Bool) (acc : JStr)
    (hacc : ∀ c ∈ acc, isTerminal c = false) :
    ∀ seg ∈ splitGo b cs acc, ∀ c ∈ seg, isTerminal c = false := by
  induction cs generalizing b acc with
  | nil =>
    intro seg hseg c hc
    simp only [splitGo, List.mem_singleton] at hseg
    subst hseg
    exact hacc c (List.mem_reverse.1 hc)
  | cons d rest ih =>
    intro seg hseg c hc
    by_cases hd : isTerminal d = true
    · cases b
      · rw [splitGo_false_cons_terminal hd] at hseg
        rcases List.mem_cons.1 hseg with rfl | hseg
        · exact hacc c (List.mem_reverse.1 hc)
        · exact ih true [] (by simp) seg hseg c hc
      · rw [splitGo_true_cons_terminal hd] at hseg
        exact ih true [] (by simp) seg hseg c hc
    · rw [splitGo_cons_not_terminal (by simpa using hd)] at hseg
      refine ih false (d :: acc) ?_ seg hseg c hc
      intro e he
      rcases List.mem_cons.1 he with rfl | he
      · simpa using hd
      · exact hacc e he

/-- Splitting a text that starts with a terminal-free piece followed by `'.'`
peels off that piece as the first segment. -/
theorem splitGo_clean_dot (x : JStr) (hx : ∀ c ∈ x, isTerminal c = false)
    (cs : JStr) (acc : JStr) :
    splitGo false (x ++ '.' :: cs) acc = (acc.reverse ++ x) :: splitGo true cs [] := by
  induction x generalizing acc with
  | nil =>
    rw [List.nil_append, splitGo_false_cons_terminal (by decide)]
    simp
  | cons c t ih =>
    have hc : isTerminal c = false := hx c (by simp)
    rw [List.cons_append, splitGo_cons_not_terminal hc,
      ih (fun d hd => hx d (by simp [hd])) (c :: acc)]
    simp

/-- Splitting a terminal-free text yields a single segment. -/
theorem splitGo_clean (x : JStr) (hx : ∀ c ∈ x, isTerminal c = false)
    (acc : JStr) : splitGo false x acc = [acc.reverse ++ x] := by
  induction x generalizing acc with
  | nil => simp [splitGo]
  | cons c t ih =>
    have hc : isTerminal c = false := hx c (by simp)
    rw [splitGo_cons_not_terminal hc, ih (fun d hd => hx d (by simp [hd])) (c :: acc)]
    simp

theorem splitGo_skip_of_not_terminal {c : Char} (hc : isTerminal c = false)
    (cs : JStr) : splitGo true (c :: cs) [] = splitGo false (c :: cs) [] := by
  rw [splitGo_cons_not_terminal hc, splitGo_cons_not_terminal hc]

theorem trimmedPieces_cons (h : JStr) (t : List JStr) :
    trimmedPieces (h :: t) =
      if jsTrim h ≠ [] then jsTrim h :: trimmedPieces t else trimmedPieces t := by
  by_cases hh : jsTrim h ≠ [] <;> simp [trimmedPieces, List.filter_cons, hh]

theorem trimmedPieces_modifyHead_ws {w : JStr}
    (hw : ∀ c ∈ w, c.isWhitespace = true) (l : List JStr) (hl : l ≠ []) :
    trimmedPieces (l.modifyHead (fun h => w ++ h)) = trimmedPieces l := by
  cases l with
  | nil => exact absurd rfl hl
  | cons h t =>
    simp only [List.modifyHead]
    rw [trimmedPieces_cons, trimmedPieces_cons, jsTrim_ws_append hw]

/-- Leading whitespace does not change the trimmed piece list of a split. -/
theorem trimmedPieces_splitGo_ws {w : JStr}
    (hw : ∀ c ∈ w, c.isWhitespace = true) (x : JStr) :
    trimmedPieces (splitGo false (w ++ x) []) = trimmedPieces (splitGo false x []) := by
  induction w with
  | nil => simp
  | cons c t ih =>
    have hcw : c.isWhitespace = true := hw c (by simp)
    have hct : isTerminal c = false := whitespace_not_terminal hcw
    rw [List.cons_append, splitGo_cons_not_terminal hct, splitGo_acc]
    have hws : ∀ d ∈ (List.reverse [c] : JStr), d.isWhitespace = true := by
      intro d hd
      simp only [List.reverse_singleton, List.mem_singleton] at hd
      subst hd; exact hcw
    rw [trimmedPieces_modifyHead_ws hws _ (splitGo_ne_nil _ _ _)]
    exact ih (fun d hd => hw d (by simp [hd]))

theorem trimRight_joinDotSpace_ne_nil {g : List JStr} (hg : g ≠ []) :
    trimRight (joinDotSpace g) ≠ [] :=
  trimRight_ne_nil_of_mem (dot_mem_joinDotSpace g hg) (by decide)

theorem trimLeft_clean {s : JStr} (hs : ∀ c ∈ s, isTerminal c = false) :
    ∀ c ∈ trimLeft s, isTerminal c = false := by
  intro c hc
  exact hs c (List.Sublist.mem hc (List.dropWhile_sublist _))

/-- Re-splitting one trimmed chunk recovers the trimmed sentences of the
group it was accumulated from. -/
theorem trimmedPieces_split_chunk :
    ∀ g : List JStr, (∀ s ∈ g, CleanSentence s) → g ≠ [] →
      trimmedPieces (splitTerminals (jsTrim (joinDotSpace g))) = g.map jsTrim := by
  intro g
  induction g with
  | nil => intro _ hg; exact absurd rfl hg
  | cons s g' ih =>
    intro hclean _
    obtain ⟨hsfree, hstrim⟩ : CleanSentence s := hclean s (by simp)
    have hTLfree := trimLeft_clean hsfree
    by_cases hg' : g' = []
    · subst hg'
      have h1 : joinDotSpace [s] = s ++ ['.', ' '] := by simp [joinDotSpace]
      rw [h1, jsTrim_append_dot_space]
      have h2 : trimLeft s ++ ['.'] = trimLeft s ++ '.' :: ([] : JStr) := rfl
      rw [h2]
      unfold splitTerminals
      rw [splitGo_clean_dot _ hTLfree]
      simp only [List.reverse_nil, List.nil_append]
      have e2 : splitGo true [] ([] : JStr) = [[]] := rfl
      rw [e2, trimmedPieces_cons, jsTrim_trimLeft, if_pos hstrim]
      have e3 : trimmedPieces [[]] = [] := by
        simp [trimmedPieces, jsTrim, trimLeft, trimRight]
      rw [e3]
      rfl
    · -- jsTrim (joinDotSpace (s :: g'))
      --   = trimLeft s ++ '.' :: ' ' :: (w ++ jsTrim (joinDotSpace g'))
      -- where w is the leading whitespace of joinDotSpace g'.
      have hJ : jsTrim (joinDotSpace g') ≠ [] := jsTrim_joinDotSpace_ne_nil hg'
      have hw : ∀ c ∈ (joinDotSpace g').takeWhile Char.isWhitespace,
          c.isWhitespace = true := fun c hc => List.mem_takeWhile_imp hc
      have hshape : jsTrim (joinDotSpace (s :: g')) =
          trimLeft s ++ '.' :: ' ' ::
            ((joinDotSpace g').takeWhile Char.isWhitespace ++ jsTrim (joinDotSpace g')) := by
        show jsTrim (s ++ '.' :: ' ' :: joinDotSpace g') = _
        unfold jsTrim
        rw [trimLeft_append_dot]
        have : trimLeft s ++ '.' :: ' ' :: joinDotSpace g' =
            (trimLeft s ++ ['.', ' ']) ++ joinDotSpace g' := by simp
        rw [this, trimRight_append (trimRight_joinDotSpace_ne_nil hg'),
          trimRight_eq_takeWhile_append hJ]
        simp [jsTrim]
      rw [hshape]
      unfold splitTerminals
      rw [splitGo_clean_dot _ hTLfree]
      simp only [List.reverse_nil, List.nil_append]
      rw [trimmedPieces_cons, jsTrim_trimLeft, if_pos hstrim]
      have hskip : splitGo true
          (' ' :: ((joinDotSpace g').takeWhile Char.isWhitespace ++
            jsTrim (joinDotSpace g'))) [] =
          splitGo false
          ((' ' :: (joinDotSpace g').takeWhile Char.isWhitespace) ++
            jsTrim (joinDotSpace g')) [] := by
        rw [List.cons_append, splitGo_skip_of_not_terminal (by decide)]
      rw [hskip]
      have hw2 : ∀ c ∈ (' ' :: (joinDotSpace g').takeWhile Char.isWhitespace : JStr),
          c.isWhitespace = true := by
        intro c hc
        rcases List.mem_cons.1 hc with rfl | hc
        · decide
        · exact hw c hc
      rw [trimmedPieces_splitGo_ws hw2]
      have := ih (fun t ht => hclean t (by simp [ht])) hg'
      unfold splitTerminals at this
      rw [this]
      simp

/-- No emitted chunk is the empty string. -/
theorem chunksGo_mem_ne_nil (maxChunkSize : ℕ) (ss : List JStr) (cur : JStr) :
    ∀ c ∈ chunksGo maxChunkSize ss cur, c ≠ [] := by
  induction ss generalizing cur with
  | nil =>
    intro c hc
    by_cases h : jsTrim cur ≠ []
    · simp only [chunksGo, if_pos h, List.mem_singleton] at hc
      subst hc; exact h
    · simp only [chunksGo, if_neg h] at hc
      cases hc
  | cons s rest ih =>
    intro c hc
    by_cases hlt : cur.length + s.length < maxChunkSize
    · simp only [chunksGo, if_pos hlt] at hc
      exact ih _ c hc
    · simp only [chunksGo, if_neg hlt] at hc
      rcases List.mem_append.1 hc with hc | hc
      · by_cases h : jsTrim cur ≠ []
        · rw [if_pos h] at hc
          rcases List.mem_singleton.1 hc with rfl
          exact h
        · rw [if_neg h] at hc; cases hc
      · exact ih _ c hc

/-- Master induction: the trimmed sentences of the emitted chunks are exactly
the pending group followed by the remaining sentences. -/
theorem chunksGo_sentences (maxChunkSize : ℕ) (ss : List JStr) (g : List JStr)
    (hss : ∀ s ∈ ss, CleanSentence s) (hg : ∀ s ∈ g, CleanSentence s) :
    ((chunksGo maxChunkSize ss (joinDotSpace g)).map
        (fun c => trimmedPieces (splitTerminals c))).flatten
      = (g ++ ss).map jsTrim := by
  induction ss generalizing g with
  | nil =>
    by_cases hgnil : g = []
    · subst hgnil
      simp [chunksGo, joinDotSpace, jsTrim, trimLeft, trimRight]
    · have hne := jsTrim_joinDotSpace_ne_nil hgnil
      simp only [chunksGo, if_pos hne, List.map_cons, List.map_nil, List.flatten,
        List.append_nil]
      rw [trimmedPieces_split_chunk g hg hgnil]
  | cons s rest ihs =>
    have hsclean : CleanSentence s := hss s (by simp)
    have hrest : ∀ t ∈ rest, CleanSentence t := fun t ht => hss t (by simp [ht])
    by_cases hlt : (joinDotSpace g).length + s.length < maxChunkSize
    · simp only [chunksGo, if_pos hlt]
      have harr : joinDotSpace g ++ s ++ ['.', ' '] = joinDotSpace (g ++ [s]) :=
        (joinDotSpace_append_singleton g s).symm
      rw [harr, ihs (g ++ [s]) hrest (by
        intro t ht
        rcases List.mem_append.1 ht with ht | ht
        · exact hg t ht
        · rcases List.mem_singleton.1 ht with rfl; exact hsclean)]
      simp
    · simp only [chunksGo, if_neg hlt]
      have hsingle : s ++ ['.', ' '] = joinDotSpace [s] := by simp [joinDotSpace]
      have hs1 : ∀ t ∈ ([s] : List JStr), CleanSentence t := by
        intro t ht; rcases List.mem_singleton.1 ht with rfl; exact hsclean
      rw [hsingle, List.map_append, List.flatten_append, ihs [s] hrest hs1]
      by_cases hgnil : g = []
      · subst hgnil
        simp [joinDotSpace, jsTrim, trimLeft, trimRight]
      · have hne := jsTrim_joinDotSpace_ne_nil hgnil
        rw [if_pos hne]
        simp only [List.map_cons, List.map_nil, List.flatten, List.append_nil]
        rw [trimmedPieces_split_chunk g hg hgnil]
        simp

/-- The sentence pieces the chunker works with are terminal-free and trim to
nonempty strings. -/
theorem sentencesOf_clean (text : JStr) : ∀ s ∈ sentencesOf text, CleanSentence s := by
  intro s hs
  have hmem := List.mem_of_mem_filter hs
  have hcond := List.of_mem_filter hs
  refine ⟨splitGo_terminal_free text false [] (by simp) s hmem, ?_⟩
  simpa using hcond

/-! ## Claim theorems for the chunker -/

/-- C2: for every input text and every `maxChunkSize`, `splitIntoChunks`
splits on terminal `.`/`!`/`?`, discards empty sentences, greedily
accumulates sentences into the current chunk until appending the next
sentence would meet or exceed `maxChunkSize` characters (then starts a new
chunk), always emits the trailing partial chunk when non-empty, and emits a
single sentence of length at least `maxChunkSize` as its own oversized chunk
(namely `(s + '. ').trim()`), without splitting it further. -/
theorem C2_splitIntoChunks_greedy (text : JStr) (maxChunkSize : ℕ) :
    splitIntoChunks text maxChunkSize = chunkSpec text maxChunkSize ∧
    (∀ s ∈ sentencesOf text, maxChunkSize ≤ s.length →
      jsTrim (s ++ ['.', ' ']) ∈ splitIntoChunks text maxChunkSize) :=
  ⟨splitIntoChunks_eq_chunkSpec text maxChunkSize,
   fun s hs hbig =>
     oversized_sentence_own_chunk maxChunkSize (sentencesOf text) [] s hs hbig⟩

/-- Witness for C2 at a concrete input: for `"abcdef. xy."` with bound 3 the
oversized sentence `"abcdef"` is emitted as its own chunk `"abcdef."`. -/
theorem C2_splitIntoChunks_greedy_witness :
    jsTrim ("abcdef".toList ++ ['.', ' ']) ∈ splitIntoChunks "abcdef. xy.".toList 3 :=
  (C2_splitIntoChunks_greedy "abcdef. xy.".toList 3).2 "abcdef".toList
    (by decide) (by decide)

/-- C8: for all text and every size bound, `splitIntoChunks` never produces
an empty-string chunk, and the trimmed sentences of the produced chunks,
concatenated in order (i.e. the concatenation of the chunks read modulo the
inserted `'. '` separators), are exactly the trimmed sentences of the input
text. -/
theorem C8_chunk_reconstruction (text : JStr) (maxChunkSize : ℕ) :
    (∀ c ∈ splitIntoChunks text maxChunkSize, c ≠ []) ∧
    ((splitIntoChunks text maxChunkSize).map (fun c => sentencesTrim c)).flatten
      = sentencesTrim text := by
  constructor
  · exact chunksGo_mem_ne_nil maxChunkSize (sentencesOf text) []
  · have h := chunksGo_sentences maxChunkSize (sentencesOf text) []
      (sentencesOf_clean text) (by simp)
    simpa [splitIntoChunks, sentencesTrim, sentencesOf, trimmedPieces,
      joinDotSpace] using h

/-- Witness for C8 at a concrete input. -/
theorem C8_chunk_reconstruction_witness :
    "Hi there.  Bye.".toList ≠ [] ∧
    ((splitIntoChunks "Hi there. Bye".toList 500).map (fun c => sentencesTrim c)).flatten
      = sentencesTrim "Hi there. Bye".toList :=
  ⟨(C8_chunk_reconstruction "Hi there. Bye".toList 500).1
      "Hi there.  Bye.".toList (by decide),
   (C8_chunk_reconstruction "Hi there. Bye".toList 500).2⟩

/-! ## Embedding provider claims -/

/-- C3: `generateEmbedding` never propagates an error: with no API key, or
whenever the remote call fails with any error, it returns the deterministic
keyword-fallback vector; in every case the result is either the fallback
vector or a successfully returned remote vector. -/
theorem C3_generateEmbedding_never_throws (env : EmbedEnv) (text : JStr) :
    (env.hasApiKey = false →
      generateEmbedding env text = (generateKeywordVector text).map (fun q : ℚ => (q : ℝ))) ∧
    (∀ e, env.remote (text.take 8000) = Except.error e →
      generateEmbedding env text = (generateKeywordVector text).map (fun q : ℚ => (q : ℝ))) ∧
    (generateEmbedding env text = (generateKeywordVector text).map (fun q : ℚ => (q : ℝ)) ∨
      ∃ v, env.remote (text.take 8000) = Except.ok v ∧ generateEmbedding env text = v) := by
  refine ⟨?_, ?_, ?_⟩
  · intro h; simp [generateEmbedding, h]
  · intro e he
    by_cases hk : env.hasApiKey = false
    · simp [generateEmbedding, hk]
    · simp [generateEmbedding, hk, he]
  · by_cases hk : env.hasApiKey = false
    · left; simp [generateEmbedding, hk]
    · rcases hr : env.remote (text.take 8000) with e | v
      · left; simp [generateEmbedding, hk, hr]
      · right; exact ⟨v, rfl, by simp [generateEmbedding, hk, hr]⟩

/-- Witness for C3: with a key configured and a remote call that always
throws, the fallback vector is returned. -/
theorem C3_generateEmbedding_never_throws_witness :
    generateEmbedding ⟨true, fun _ => Except.error []⟩ "abc".toList =
      (generateKeywordVector "abc".toList).map (fun q : ℚ => (q : ℝ)) :=
  (C3_generateEmbedding_never_throws ⟨true, fun _ => Except.error []⟩ "abc".toList).2.1
    [] rfl

/-- C4: the keyword-fallback vector has one component per vocabulary term
(24 of them); for nonempty text the component for the `i`-th term equals
`occurrences(term, lowercased text) / length(text) * 1000` (for empty text
the source divides by zero, producing `NaN` components); and identical texts
yield identical vectors. -/
theorem C4_generateKeywordVector_spec (text : JStr) :
    (generateKeywordVector text).length = ragKeywords.length ∧
    ragKeywords.length = 24 ∧
    (text ≠ [] → ∀ i : ℕ,
      (generateKeywordVector text)[i]? = (ragKeywords[i]?).map
        (fun kw => (countOccs kw (jsToLower text) : ℚ) / (text.length : ℚ) * 1000)) ∧
    (∀ t2 : JStr, text = t2 → generateKeywordVector text = generateKeywordVector t2) := by
  refine ⟨by simp [generateKeywordVector], by decide, ?_, ?_⟩
  · intro _ i
    simp [generateKeywordVector, List.getElem?_map]
  · intro t2 h; rw [h]

/-- Witness for C4 on nonempty text. -/
theorem C4_generateKeywordVector_spec_witness :
    (generateKeywordVector "market".toList)[0]? = (ragKeywords[0]?).map
      (fun kw => (countOccs kw (jsToLower "market".toList) : ℚ) /
        (("market".toList).length : ℚ) * 1000) :=
  (C4_generateKeywordVector_spec "market".toList).2.2.1 (by decide) 0

/-! ## Training-example deletion claims -/

theorem length_sub_filter_ne (l : List Chunk) (name : JStr) :
    l.length - (l.filter (fun d => decide (d.fileName ≠ name))).length
      = (l.filter (fun d => decide (d.fileName = name))).length := by
  induction l with
  | nil => rfl
  | cons d t ih =>
    have hle : (t.filter (fun x => decide (x.fileName ≠ name))).length ≤ t.length :=
      List.length_filter_le _ t
    by_cases hd : d.fileName = name
    · have e1 : (d :: t).filter (fun x => decide (x.fileName ≠ name)) =
          t.filter (fun x => decide (x.fileName ≠ name)) := by
        simp [List.filter_cons, hd]
      have e2 : (d :: t).filter (fun x => decide (x.fileName = name)) =
          d :: t.filter (fun x => decide (x.fileName = name)) := by
        simp [List.filter_cons, hd]
      rw [e1, e2]
      simp only [List.length_cons]
      omega
    · have e1 : (d :: t).filter (fun x => decide (x.fileName ≠ name)) =
          d :: t.filter (fun x => decide (x.fileName ≠ name)) := by
        simp [List.filter_cons, hd]
      have e2 : (d :: t).filter (fun x => decide (x.fileName = name)) =
          t.filter (fun x => decide (x.fileName = name)) := by
        simp [List.filter_cons, hd]
      rw [e1, e2]
      simp only [List.length_cons]
      omega

/-- C5: deleting an in-bounds index removes that training example, removes
every chunk with the same source name from the document store, and reports
the removed example's name and the number of cascade-removed chunks (thus an
example whose source produced 3 stored chunks reports `removedChunks = 3`). -/
theorem C5_deleteAt_cascade (st : RagStore) (i : ℕ)
    (h : i < st.trainingExamples.length) :
    deleteTrainingExampleRoute (some (i : Int)) st =
      (DeleteResponse.ok (st.trainingExamples.get ⟨i, h⟩).fileName
          (st.documentStore.filter
            (fun doc => decide (doc.fileName = (st.trainingExamples.get ⟨i, h⟩).fileName))).length
          (st.trainingExamples.length - 1),
       { trainingExamples := st.trainingExamples.eraseIdx i
         documentStore := st.documentStore.filter
           (fun doc => decide (doc.fileName ≠ (st.trainingExamples.get ⟨i, h⟩).fileName)) }) := by
  have h0 : ¬ ((i : Int) < 0) := by omega
  have h1 : ¬ ((st.trainingExamples.length : Int) ≤ (i : Int)) := by
    exact_mod_cast Nat.not_le.2 h
  have hget : st.trainingExamples.get? i = some (st.trainingExamples.get ⟨i, h⟩) :=
    List.get?_eq_get h
  have hguard : (decide ((i : Int) < 0) ||
      decide ((st.trainingExamples.length : Int) ≤ (i : Int))) = false := by
    simp [h0, h1]
  simp only [deleteTrainingExampleRoute, hguard, Bool.false_eq_true, if_false,
    Int.toNat_natCast, hget]
  simp only [Prod.mk.injEq, DeleteResponse.ok.injEq, and_true, true_and]
  refine ⟨?_, ?_⟩
  · exact length_sub_filter_ne st.documentStore _
  · rw [List.length_eraseIdx, if_pos h]

/-- Witness for C5: one example whose source has exactly one stored chunk. -/
theorem C5_deleteAt_cascade_witness :
    deleteTrainingExampleRoute (some ((0 : ℕ) : Int))
      ⟨[⟨"c".toList, "f".toList, "g".toList, []⟩],
       [⟨"i".toList, "f".toList, "x".toList, [], "g".toList, 0, 1, []⟩]⟩ =
      (DeleteResponse.ok "f".toList 1 0, ⟨[], []⟩) := by
  have h := C5_deleteAt_cascade
    ⟨[⟨"c".toList, "f".toList, "g".toList, []⟩],
     [⟨"i".toList, "f".toList, "x".toList, [], "g".toList, 0, 1, []⟩]⟩ 0 (by decide)
  rw [h]
  rfl

/-- C6: deleting an out-of-bounds (numeric) index fails with 404 NotFound
and mutates neither the training-example registry nor the chunk store. -/
theorem C6_deleteAt_out_of_bounds (st : RagStore) (i : Int)
    (h : i < 0 ∨ (st.trainingExamples.length : Int) ≤ i) :
    deleteTrainingExampleRoute (some i) st = (DeleteResponse.notFound, st) := by
  have : (decide (i < 0) || decide ((st.trainingExamples.length : Int) ≤ i)) = true := by
    rcases h with h | h <;> simp [h]
  simp [deleteTrainingExampleRoute, this]

/-- Witness for C6. -/
theorem C6_deleteAt_out_of_bounds_witness :
    deleteTrainingExampleRoute (some (-1)) ⟨[], []⟩ =
      (DeleteResponse.notFound, ⟨[], []⟩) :=
  C6_deleteAt_out_of_bounds ⟨[], []⟩ (-1) (Or.inl (by norm_num))

/-- C9: a route parameter that does not parse to a number (`parseInt` gives
`NaN`) passes the bounds guard (both `NaN` comparisons are false) and
`splice(NaN, 1)` removes the FIRST training example, with its cascade — the
request succeeds instead of failing with NotFound. -/
theorem C9_deleteAt_nan_deletes_first (e : TrainingExample)
    (rest : List TrainingExample) (docs : List Chunk) :
    deleteTrainingExampleRoute none ⟨e :: rest, docs⟩ =
      (DeleteResponse.ok e.fileName
          (docs.filter (fun doc => decide (doc.fileName = e.fileName))).length
          rest.length,
       ⟨rest, docs.filter (fun doc => decide (doc.fileName ≠ e.fileName))⟩) := by
  simp only [deleteTrainingExampleRoute, Bool.false_eq_true, if_false,
    List.get?_cons_zero, List.eraseIdx_cons_zero]
  simp only [Prod.mk.injEq, DeleteResponse.ok.injEq, and_true, true_and]
  exact length_sub_filter_ne docs _

/-! ## Settings-merge claim (C7) -/

/-- C7 counterexample: `POST /admin/update-api-settings` with a patch that
supplies `similarityThreshold = 0` — a defined value, not `undefined` —
leaves the stored threshold at its previous value `0.7`, because the source
guards this field with truthiness (`if (similarityThreshold)`), not with
`!== undefined`. -/
theorem C7_counterexample :
    (updateApiSettings ⟨none, none, none, none, some 0, none⟩
        adminSettingsInit).similarityThreshold = 7/10 ∧ (7/10 : ℚ) ≠ 0 := by
  constructor
  · rfl
  · norm_num

/-- C7 (amended): in `update-api-settings`, `temperature` and `ragEnabled`
are overwritten exactly when supplied with a non-`undefined` value, while
`claudeModel`, `maxTokens`, `similarityThreshold` and `maxTrainingExamples`
are overwritten exactly when the supplied value is truthy (so `0` or `''`
are ignored); in `rag-settings`, `enabled`, `similarityThreshold` and
`maxExamples` follow the `!== undefined` rule (so `similarityThreshold = 0`
is applied there, and copied into `adminSettings`), while `mode` follows the
truthiness rule. -/
theorem C7_settings_merge (p : ApiSettingsPatch) (s : AdminSettings)
    (q : RagSettingsPatch) (rs : RagSettings) (a : AdminSettings) :
    updateApiSettings p s =
      { claudeModel :=
          if truthyStr p.claudeModel then p.claudeModel.getD [] else s.claudeModel
        maxTokens :=
          if truthyNum p.maxTokens then jsParseIntNum (p.maxTokens.getD 0) else s.maxTokens
        temperature := p.temperature.getD s.temperature
        ragEnabled := p.ragEnabled.getD s.ragEnabled
        similarityThreshold :=
          if truthyNum p.similarityThreshold then p.similarityThreshold.getD 0
          else s.similarityThreshold
        maxTrainingExamples :=
          if truthyNum p.maxTrainingExamples then jsParseIntNum (p.maxTrainingExamples.getD 0)
          else s.maxTrainingExamples } ∧
    updateRagSettings q rs a =
      (⟨q.enabled.getD rs.enabled,
        if truthyStr q.mode then q.mode.getD [] else rs.mode,
        q.similarityThreshold.getD rs.similarityThreshold,
        q.maxExamples.getD rs.maxExamples⟩,
       { a with
          ragEnabled := q.enabled.getD rs.enabled
          similarityThreshold := q.similarityThreshold.getD rs.similarityThreshold
          maxTrainingExamples := q.maxExamples.getD rs.maxExamples }) := by
  constructor
  · rcases p with ⟨pc, pm, pt, pr, ps, px⟩
    cases pt <;> cases pr <;>
      by_cases h1 : truthyStr pc <;> by_cases h2 : truthyNum pm <;>
      by_cases h3 : truthyNum ps <;> by_cases h4 : truthyNum px <;>
      simp [updateApiSettings, h1, h2, h3, h4, Option.getD]
  · rcases q with ⟨qe, qm, qs, qx⟩
    cases qe <;> cases qs <;> cases qx <;>
      simp [updateRagSettings, Option.getD]

/-! ## Ranking lemmas (towards C1) -/

theorem sortBySimilarity_perm (l : List ScoredChunk) :
    (sortBySimilarity l).Perm l :=
  List.perm_insertionSort _ l

theorem sortBySimilarityIdx_perm (l : List (ℕ × ScoredChunk)) :
    (sortBySimilarityIdx l).Perm l :=
  List.perm_insertionSort _ l

theorem orderedInsert_pairwise_rankedBefore (x : ℕ × ScoredChunk)
    (l : List (ℕ × ScoredChunk)) (hl : l.Pairwise rankedBefore)
    (hx : ∀ y ∈ l, x.1 < y.1) :
    (List.orderedInsert (fun a b => simKey b.2 ≤ simKey a.2) x l).Pairwise
      rankedBefore := by
  induction l with
  | nil => simp [List.orderedInsert]
  | cons b t ih =>
    simp only [List.orderedInsert]
    by_cases hcond : simKey b.2 ≤ simKey x.2
    · rw [if_pos hcond]
      refine List.Pairwise.cons ?_ hl
      intro y hy
      rcases List.mem_cons.1 hy with rfl | hyt
      · rcases lt_or_eq_of_le hcond with hlt | heq
        · exact Or.inl hlt
        · exact Or.inr ⟨heq.symm, hx y (by simp)⟩
      · have hby := (List.pairwise_cons.1 hl).1 y hyt
        have hyb : simKey y.2 ≤ simKey b.2 := by
          rcases hby with hlt | ⟨heq, _⟩
          · exact le_of_lt hlt
          · exact le_of_eq heq.symm
        rcases lt_or_eq_of_le (le_trans hyb hcond) with hlt | heq
        · exact Or.inl hlt
        · exact Or.inr ⟨heq.symm, hx y (by simp [hyt])⟩
    · rw [if_neg hcond]
      have hxb : simKey x.2 < simKey b.2 := not_le.1 hcond
      refine List.Pairwise.cons ?_
        (ih (List.pairwise_cons.1 hl).2 (fun y hy => hx y (by simp [hy])))
      intro y hy
      rcases (List.mem_orderedInsert _).1 hy with rfl | hyt
      · exact Or.inl hxb
      · exact (List.pairwise_cons.1 hl).1 y hyt

theorem sortBySimilarityIdx_pairwise (l : List (ℕ × ScoredChunk))
    (hidx : l.Pairwise (fun a b => a.1 < b.1)) :
    (sortBySimilarityIdx l).Pairwise rankedBefore := by
  induction l with
  | nil => simp [sortBySimilarityIdx, List.insertionSort]
  | cons x t ih =>
    show (List.orderedInsert (fun a b => simKey b.2 ≤ simKey a.2) x
      (List.insertionSort (fun a b => simKey b.2 ≤ simKey a.2) t)).Pairwise rankedBefore
    refine orderedInsert_pairwise_rankedBefore x _
      (ih (List.pairwise_cons.1 hidx).2) ?_
    intro y hy
    have hyt : y ∈ t := (List.perm_insertionSort _ t).mem_iff.1 hy
    exact (List.pairwise_cons.1 hidx).1 y hyt

theorem map_snd_orderedInsert (x : ℕ × ScoredChunk) (l : List (ℕ × ScoredChunk)) :
    (List.orderedInsert (fun a b => simKey b.2 ≤ simKey a.2) x l).map Prod.snd =
      List.orderedInsert (fun a b => simKey b ≤ simKey a) x.2 (l.map Prod.snd) := by
  induction l with
  | nil => rfl
  | cons b t ih =>
    simp only [List.orderedInsert, List.map_cons]
    by_cases hc : simKey b.2 ≤ simKey x.2
    · rw [if_pos hc, if_pos hc]
      simp
    · rw [if_neg hc, if_neg hc]
      simp [ih]

theorem map_snd_sortBySimilarityIdx (l : List (ℕ × ScoredChunk)) :
    (sortBySimilarityIdx l).map Prod.snd = sortBySimilarity (l.map Prod.snd) := by
  induction l with
  | nil => rfl
  | cons x t ih =>
    show (List.orderedInsert (fun a b => simKey b.2 ≤ simKey a.2) x
        (List.insertionSort (fun a b => simKey b.2 ≤ simKey a.2) t)).map Prod.snd = _
    rw [map_snd_orderedInsert,
      show List.insertionSort (fun a b => simKey b.2 ≤ simKey a.2) t =
        sortBySimilarityIdx t from rfl, ih]
    rfl

theorem pairwise_fst_lt_enumFrom {α : Type} (l : List α) (n : ℕ) :
    (l.enumFrom n).Pairwise (fun a b => a.1 < b.1) := by
  induction l generalizing n with
  | nil => simp
  | cons x t ih =>
    refine List.Pairwise.cons ?_ (ih (n + 1))
    intro y hy
    obtain ⟨i, z⟩ := y
    have := (List.mem_enumFrom hy).1
    simpa using lt_of_lt_of_le (Nat.lt_succ_self n) this

theorem pairwise_fst_lt_enum {α : Type} (l : List α) :
    l.enum.Pairwise (fun a b => a.1 < b.1) :=
  pairwise_fst_lt_enumFrom l 0

theorem sortBySimilarity_sorted (l : List ScoredChunk) :
    (sortBySimilarity l).Pairwise (fun a b => simKey b ≤ simKey a) := by
  have ht : IsTotal ScoredChunk (fun a b => simKey b ≤ simKey a) :=
    ⟨fun a b => le_total (simKey b) (simKey a)⟩
  have htr : IsTrans ScoredChunk (fun a b => simKey b ≤ simKey a) :=
    ⟨fun _ _ _ hab hbc => le_trans hbc hab⟩
  exact @List.sorted_insertionSort ScoredChunk (fun a b => simKey b ≤ simKey a)
    _ ht htr l

/-- Zero-norm similarity: with equal lengths and a zero sum of squares on
either side, `calculateSimilarity` hits a zero divisor and yields `NaN`. -/
theorem calculateSimilarity_zero_norm (v1 v2 : List ℝ)
    (hlen : v1.length = v2.length)
    (h : (v1.map (fun a => a * a)).sum = 0 ∨ (v2.map (fun a => a * a)).sum = 0) :
    calculateSimilarity v1 v2 = none := by
  simp only [calculateSimilarity]
  rw [if_neg (by simp [hlen])]
  rcases h with h | h
  · rw [h, Real.sqrt_zero, zero_mul, if_pos rfl]
  · rw [h, Real.sqrt_zero, mul_zero, if_pos rfl]

/-- Cosine similarity of `[1, 0]` against `[x, sqrt r]` when
`x² + r = n² > 0`: exactly `x / n`. -/
theorem calcSim_unit_query (x r n : ℝ) (hr : 0 ≤ r) (hn : 0 < n)
    (hsum : x * x + r = n * n) :
    calculateSimilarity [1, 0] [x, Real.sqrt r] = some (x / n) := by
  simp only [calculateSimilarity]
  rw [if_neg (by simp)]
  have e1 : ((List.zipWith (fun a b => a * b) [1, 0] [x, Real.sqrt r]).sum : ℝ) = x := by
    simp
  have e2 : ((([1, 0] : List ℝ)).map (fun a => a * a)).sum = 1 := by norm_num
  have e3 : ((([x, Real.sqrt r] : List ℝ)).map (fun a => a * a)).sum = n * n := by
    simp only [List.map_cons, List.map_nil, List.sum_cons, List.sum_nil]
    rw [Real.mul_self_sqrt hr, add_zero, hsum]
  rw [e1, e2, e3, Real.sqrt_one, one_mul, Real.sqrt_mul_self (le_of_lt hn)]
  rw [if_neg (by exact ne_of_gt hn)]

end Sagan

namespace Sagan

/-- C1: the query pipeline equals filter-sort-truncate; the sorted list is a
permutation of exactly the entries that pass the strict `>` threshold
filter; the sort is descending by similarity with ties in original store
order (stable); and on a store with similarities `[0.9, 0.5, 0.5, 0.2]`,
threshold `0.4` and limit `2`, the result is the `0.9` chunk followed by the
first-inserted `0.5` chunk. -/
theorem C1_retrieveRelevantContext_ranking (env : EmbedEnv) (query : JStr)
    (store : List Chunk) (threshold : ℝ) (limit : ℕ) :
    retrieveRelevantContext env query store threshold limit =
        (sortBySimilarity (relevantScored env query store threshold)).take limit ∧
    (sortBySimilarity (relevantScored env query store threshold)).Perm
        (relevantScored env query store threshold) ∧
    sortBySimilarity (relevantScored env query store threshold) =
        (sortBySimilarityIdx ((relevantScored env query store threshold).enum)).map
          Prod.snd ∧
    (sortBySimilarityIdx ((relevantScored env query store threshold).enum)).Pairwise
        rankedBefore ∧
    (∀ c1 c2 c3 c4 : Chunk,
      calculateSimilarity (generateEmbedding env query) c1.embedding = some 0.9 →
      calculateSimilarity (generateEmbedding env query) c2.embedding = some 0.5 →
      calculateSimilarity (generateEmbedding env query) c3.embedding = some 0.5 →
      calculateSimilarity (generateEmbedding env query) c4.embedding = some 0.2 →
      retrieveRelevantContext env query [c1, c2, c3, c4] 0.4 2 =
        [(c1, some 0.9), (c2, some 0.5)]) := by
  refine ⟨?_, sortBySimilarity_perm _, ?_, ?_, ?_⟩
  · cases store with
    | nil => simp [retrieveRelevantContext, relevantScored, sortBySimilarity,
        List.insertionSort]
    | cons c cs => rfl
  · rw [map_snd_sortBySimilarityIdx, List.enum_map_snd]
  · exact sortBySimilarityIdx_pairwise _ (pairwise_fst_lt_enum _)
  · intro c1 c2 c3 c4 h1 h2 h3 h4
    have e1 : simGtB (some (0.9 : ℝ)) 0.4 = true := by
      simp only [simGtB, decide_eq_true_eq]; norm_num
    have e2 : simGtB (some (0.5 : ℝ)) 0.4 = true := by
      simp only [simGtB, decide_eq_true_eq]; norm_num
    have e4 : simGtB (some (0.2 : ℝ)) 0.4 = false := by
      simp only [simGtB, decide_eq_false_iff_not]; norm_num
    have hfil : relevantScored env query [c1, c2, c3, c4] 0.4 =
        [(c1, some 0.9), (c2, some 0.5), (c3, some 0.5)] := by
      simp only [relevantScored, List.map_cons, List.map_nil, h1, h2, h3, h4,
        List.filter_cons, List.filter_nil, e1, e2, e4]
      simp
    have hsorted : sortBySimilarity
        [(c1, some (0.9 : ℝ)), (c2, some 0.5), (c3, some 0.5)] =
        [(c1, some 0.9), (c2, some 0.5), (c3, some 0.5)] := by
      simp only [sortBySimilarity, List.insertionSort, List.orderedInsert]
      rw [if_pos (show simKey (c3, some (0.5 : ℝ)) ≤ simKey (c2, some (0.5 : ℝ)) by
        simp [simKey])]
      simp only [List.orderedInsert]
      rw [if_pos (show simKey (c2, some (0.5 : ℝ)) ≤ simKey (c1, some (0.9 : ℝ)) by
        simp only [simKey, Option.getD_some]; norm_num)]
    show (sortBySimilarity (relevantScored env query [c1, c2, c3, c4] 0.4)).take 2 = _
    rw [hfil, hsorted]
    rfl

/-- Witness for C1: a concrete four-chunk store whose cosine similarities to
the query embedding `[1, 0]` are exactly `0.9`, `0.5`, `0.5`, `0.2`. -/
theorem C1_retrieveRelevantContext_ranking_witness :
    retrieveRelevantContext ⟨true, fun _ => Except.ok [1, 0]⟩ "q".toList
      [⟨"a".toList, "fa".toList, "ca".toList, [9, Real.sqrt 19], "g".toList, 0, 4, []⟩,
       ⟨"b".toList, "fb".toList, "cb".toList, [1, Real.sqrt 3], "g".toList, 1, 4, []⟩,
       ⟨"c".toList, "fc".toList, "cc".toList, [2, Real.sqrt 12], "g".toList, 2, 4, []⟩,
       ⟨"d".toList, "fd".toList, "cd".toList, [1, Real.sqrt 24], "g".toList, 3, 4, []⟩]
      0.4 2 =
      [(⟨"a".toList, "fa".toList, "ca".toList, [9, Real.sqrt 19], "g".toList, 0, 4, []⟩,
        some 0.9),
       (⟨"b".toList, "fb".toList, "cb".toList, [1, Real.sqrt 3], "g".toList, 1, 4, []⟩,
        some 0.5)] := by
  have h1 : calculateSimilarity [1, 0] [9, Real.sqrt 19] = some 0.9 := by
    rw [calcSim_unit_query 9 19 10 (by norm_num) (by norm_num) (by norm_num)]
    norm_num
  have h2 : calculateSimilarity [1, 0] [1, Real.sqrt 3] = some 0.5 := by
    rw [calcSim_unit_query 1 3 2 (by norm_num) (by norm_num) (by norm_num)]
    norm_num
  have h3 : calculateSimilarity [1, 0] [2, Real.sqrt 12] = some 0.5 := by
    rw [calcSim_unit_query 2 12 4 (by norm_num) (by norm_num) (by norm_num)]
    norm_num
  have h4 : calculateSimilarity [1, 0] [1, Real.sqrt 24] = some 0.2 := by
    rw [calcSim_unit_query 1 24 5 (by norm_num) (by norm_num) (by norm_num)]
    norm_num
  exact (C1_retrieveRelevantContext_ranking ⟨true, fun _ => Except.ok [1, 0]⟩
      "q".toList [] 0 0).2.2.2.2 _ _ _ _ h1 h2 h3 h4

/-- C10: for equal-length vectors with a zero norm on either side,
`calculateSimilarity` divides by zero and returns `NaN` (modelled `none`)
rather than a number in `[-1, 1]`; a `NaN` similarity never satisfies the
strict `>` filter, so such a chunk is always excluded from query results;
and the keyword-fallback vector of a nonempty text containing no vocabulary
keyword is such a zero-norm vector. -/
theorem C10_zero_norm_nan_excluded :
    (∀ v1 v2 : List ℝ, v1.length = v2.length →
      ((v1.map (fun a => a * a)).sum = 0 ∨ (v2.map (fun a => a * a)).sum = 0) →
      calculateSimilarity v1 v2 = none ∧
        ∀ θ : ℝ, simGtB (calculateSimilarity v1 v2) θ = false) ∧
    (∀ (env : EmbedEnv) (query : JStr) (store : List Chunk) (θ : ℝ) (lim : ℕ)
        (sc : ScoredChunk), sc ∈ retrieveRelevantContext env query store θ lim →
      ¬ (sc.1.embedding.length = (generateEmbedding env query).length ∧
        (((generateEmbedding env query).map (fun a => a * a)).sum = 0 ∨
          ((sc.1.embedding.map (fun a => a * a)).sum = 0)))) ∧
    (∀ text : JStr, text ≠ [] →
      (∀ kw ∈ ragKeywords, countOccs kw (jsToLower text) = 0) →
      ∀ v : List ℝ, v.length = 24 →
      calculateSimilarity v ((generateKeywordVector text).map (fun q : ℚ => (q : ℝ)))
        = none) := by
  refine ⟨?_, ?_, ?_⟩
  · intro v1 v2 hlen hz
    have hnan := calculateSimilarity_zero_norm v1 v2 hlen hz
    exact ⟨hnan, fun θ => by rw [hnan]; rfl⟩
  · intro env query store θ lim sc hmem hbad
    obtain ⟨hlen, hz⟩ := hbad
    cases store with
    | nil => simp [retrieveRelevantContext] at hmem
    | cons c cs =>
      have h1 : sc ∈ sortBySimilarity (relevantScored env query (c :: cs) θ) :=
        List.take_subset _ _ hmem
      have h2 : sc ∈ relevantScored env query (c :: cs) θ :=
        (sortBySimilarity_perm _).subset h1
      obtain ⟨hmap, hcond⟩ := List.mem_filter.1 h2
      obtain ⟨doc, _, hsc⟩ := List.mem_map.1 hmap
      subst hsc
      dsimp only at hcond hlen hz
      have hnan : calculateSimilarity (generateEmbedding env query)
          doc.embedding = none :=
        calculateSimilarity_zero_norm _ _ hlen.symm hz
      rw [hnan] at hcond
      simp [simGtB] at hcond
  · intro text _ hcnt v hvlen
    have hfb : (generateKeywordVector text).map (fun q : ℚ => (q : ℝ)) =
        List.replicate 24 0 := by
      rw [List.eq_replicate_iff]
      constructor
      · simp only [List.length_map, generateKeywordVector]
        decide
      · intro b hb
        obtain ⟨q, hq, rfl⟩ := List.mem_map.1 hb
        simp only [generateKeywordVector, List.mem_map] at hq
        obtain ⟨kw, hkw, rfl⟩ := hq
        rw [hcnt kw hkw]
        norm_num
    rw [hfb]
    refine calculateSimilarity_zero_norm _ _ (by simp [hvlen]) (Or.inr ?_)
    simp

/-- Witness for C10 using the fallback vector of a keyword-free text. -/
theorem C10_zero_norm_nan_excluded_witness :
    calculateSimilarity (List.replicate 24 (1 : ℝ))
      ((generateKeywordVector "zzz".toList).map (fun q : ℚ => (q : ℝ))) = none :=
  C10_zero_norm_nan_excluded.2.2 "zzz".toList (by decide) (by decide)
    (List.replicate 24 1) (by simp)

end Sagan
